import Mathlib

set_option maxHeartbeats 1000000

namespace PlayVsChat

/-! Shallow embedding of `src/lichess/bot.py` (play-versus-twitch-chat).

The vote-collection handler and move selection come from
`Game.poll_for_legal_move`, the terminal-event handling from `Game.start`,
the `when` chat command from `ChatCommands.when`, and the orchestrator
(active-game slot, challenge queue) from the `Bot` class.  Python dicts are
modelled as insertion-ordered association lists, Python sets as lists with
membership, and time stamps as naturals. -/

/-! ### Vote collection (`Game.poll_for_legal_move`) -/

/-- State of one voting window: `num_votes` (a dict keyed by move text, in
insertion order) and `users` (the set of senders already counted). -/
structure VoteState where
  numVotes : List (String × Nat)
  users : List String
  deriving Repr, DecidableEq

def VoteState.init : VoteState := ⟨[], []⟩

/-- Keys of the `num_votes` dict, in insertion order. -/
def keys (nv : List (String × Nat)) : List String := nv.map Prod.fst

/-- Value lookup in the `num_votes` dict (first matching key). -/
def lookupCount : List (String × Nat) → String → Option Nat
  | [], _ => none
  | (k', v) :: rest, k => if k' = k then some v else lookupCount rest k

/-- Model of `if msg.text not in num_votes: num_votes[msg.text] = 0`
followed by `num_votes[msg.text] += 1`. -/
def bump (nv : List (String × Nat)) (k : String) : List (String × Nat) :=
  let nv0 := if k ∈ keys nv then nv else nv ++ [(k, 0)]
  nv0.map (fun p => if p.1 = k then (p.1, p.2 + 1) else p)

/-- The `on_message` handler: only a sender not yet in `users` whose text
exactly matches a legal move increments that move's tally and is marked. -/
def onMessage (legal : List String) (st : VoteState) (user text : String) : VoteState :=
  if user ∉ st.users ∧ text ∈ legal then
    { numVotes := bump st.numVotes text, users := st.users ++ [user] }
  else st

/-- Process the messages of one voting window in arrival order. -/
def processMsgs (legal : List String) : VoteState → List (String × String) → VoteState
  | st, [] => st
  | st, (u, t) :: rest => processMsgs legal (onMessage legal st u t) rest

def processMessages (legal : List String) (msgs : List (String × String)) : VoteState :=
  processMsgs legal VoteState.init msgs

/-- The moves of the messages that were actually counted, in arrival order. -/
def countedVotes (legal : List String) : VoteState → List (String × String) → List String
  | _, [] => []
  | st, (u, t) :: rest =>
    if u ∉ st.users ∧ t ∈ legal then t :: countedVotes legal (onMessage legal st u t) rest
    else countedVotes legal (onMessage legal st u t) rest

/-- Accumulator-passing loop of CPython `max`: replace the current best only
on a strictly greater key value. -/
def pyMaxGo (best : String × Nat) : List (String × Nat) → String × Nat
  | [] => best
  | q :: rest => pyMaxGo (if best.2 < q.2 then q else best) rest

/-- Model of `max(num_votes, key=num_votes.get)`: iterate the dict keys in
insertion order, keeping the first key attaining the maximum value. -/
def pyMax (nv : List (String × Nat)) : Option String :=
  match nv with
  | [] => none
  | p :: rest => some (pyMaxGo p rest).1

/-- First occurrence order of a list of votes (the key-insertion order the
`num_votes` dict ends up with), starting from already present keys `acc`. -/
def firstOccFrom (acc : List String) (vs : List String) : List String :=
  vs.foldl (fun a v => if v ∈ a then a else a ++ [v]) acc

def firstOcc (vs : List String) : List String := firstOccFrom [] vs

/-- Maximum tally value of the final dict. -/
def tallyMax (nv : List (String × Nat)) : Nat := (nv.map Prod.snd).foldr max 0

/-- Modelled from the spec: scan the counted votes and return the first move
whose running count reaches `M` (the spec's "first move to reach the
eventual maximum count" tie-break, stated here for comparison with the
code's selection). -/
def runningReach (M : Nat) : List String → List String → Option String
  | _, [] => none
  | seen, v :: rest =>
    if (seen ++ [v]).count v = M then some v else runningReach M (seen ++ [v]) rest

/-- Modelled from the spec: the "first move to reach the eventual maximum
count" of a voting window. -/
def firstToReachEventualMax (legal : List String) (msgs : List (String × String)) : Option String :=
  runningReach (tallyMax (processMessages legal msgs).numVotes) []
    (countedVotes legal VoteState.init msgs)

/-! ### Game event loop (`Game.start`) -/

inductive Color
  | white
  | black
  deriving DecidableEq, Repr

/-- Game-state events relevant to the terminal handling in `Game.start`:
an `aborted` status, a `mate` status carrying the declared winner color,
or any other (non-terminal) event. -/
inductive GEvent
  | aborted
  | mate (winner : Color)
  | other
  deriving DecidableEq, Repr

/-- The `mate` branch of `Game.start`: `user_won` is set to `False` when
the declared winner color equals the session's own color, else `True`. -/
def mateUserWon (winner color : Color) : Bool :=
  if (winner = Color.white ∧ color = Color.white) ∨
     (winner = Color.black ∧ color = Color.black) then false else true

/-- The event loop of `Game.start`, reduced to what it records in
`user_won`: `aborted` breaks with no outcome, `mate` records the outcome
and breaks, any other event continues. -/
def gameLoop (color : Color) : List GEvent → Option Bool
  | [] => none
  | GEvent.aborted :: _ => none
  | GEvent.mate w :: _ => some (mateUserWon w color)
  | GEvent.other :: rest => gameLoop color rest

/-- Color assignment in `Game.start`: white iff the session moves first. -/
def colorOf (firstMove : Bool) : Color :=
  if firstMove then Color.white else Color.black

/-! ### The `when` chat command (`ChatCommands.when`) -/

inductive WhenReply
  | position (pos : Nat) (lichess : String)
  | notInQueue
  deriving DecidableEq, Repr

/-- The `for idx, (twitch, lichess) in enumerate(queue)` scan of `when`:
one position reply (1-based) per queue entry whose twitch name matches. -/
def whenScanFrom (caller : String) (idx : Nat) : List (String × String) → List WhenReply
  | [] => []
  | (tw, li) :: rest =>
    (if tw = caller then [WhenReply.position (idx + 1) li] else []) ++
      whenScanFrom caller (idx + 1) rest

def whenScan (caller : String) (queue : List (String × String)) : List WhenReply :=
  whenScanFrom caller 0 queue

/-- The `when` handler: privileged callers get the queue scan followed,
unconditionally, by the "You are not in queue" reply. -/
def whenCommand (privileged : Bool) (caller : String)
    (queue : List (String × String)) : List WhenReply :=
  if privileged then whenScan caller queue ++ [WhenReply.notInQueue] else []

/-! ### The orchestrator (`Bot`) -/

inductive GameState
  | challengeSent
  | inProgress
  | finished
  deriving DecidableEq, Repr

/-- A `Game` object, with the fields the claims are about.  `state`,
`color` and `userWon` are the mutable fields written by `Game.start`. -/
structure Session where
  opponentTwitch : String
  opponentLichess : String
  challengeId : String
  startTime : Nat
  state : GameState
  color : Option Color
  userWon : Option Bool
  deriving DecidableEq, Repr

/-- Chat messages the orchestrator sends, abstracted to their shape. -/
inductive ChatMsg
  | gameResult (lost : Bool) (tw li : String)
  | challengeTimedOut (tw li : String)
  | challenging (tw li : String)
  | challengeFailed (tw li : String)
  | queued (tw : String) (pos : Nat)
  | starting (tw li : String)
  | declined (tw li : String)
  deriving DecidableEq, Repr

/-- Orchestrator state.  Sessions live in `store` keyed by a fresh id so
that the active-slot reference and the game-thread reference can alias the
same object; `enqHist`, `deqHist`, `issuedLog` and `addGameCalls` are ghost
logs of observable interactions (queue appends, queue pops, calls to
`send_challenge`, calls to `user_database.add_game`). -/
structure BotState where
  store : List (Nat × Session)
  nextId : Nat
  activeGame : Option Nat
  activeThread : Option Nat
  challengeQueue : List (String × String)
  msgs : List ChatMsg
  enqHist : List (String × String)
  deqHist : List (String × String)
  issuedLog : List (String × String)
  addGameCalls : List (String × Option Bool)
  deriving DecidableEq, Repr

def initState : BotState := ⟨[], 0, none, none, [], [], [], [], [], []⟩

def storeGet : List (Nat × Session) → Nat → Option Session
  | [], _ => none
  | (j, g) :: rest, i => if j = i then some g else storeGet rest i

def storeSet (store : List (Nat × Session)) (i : Nat) (g : Session) :
    List (Nat × Session) :=
  store.map (fun p => if p.1 = i then (i, g) else p)

/-- Modelled from the spec: the constant is imported from the `lichess`
package whose source is not in the repository snapshot; only comparisons
against it matter to the claims, so any fixed positive value serves. -/
def ACCEPT_CHALLENGE_WAIT_SECONDS : Nat := 60

/-- Python truthiness of `user_won` in the result announcement
(`'Lost' if self._active_game.user_won else 'Won'`): `None` is falsy. -/
def pyLost (w : Option Bool) : Bool := w.getD false

/-- The success path of `send_challenge`: `set_active_game(Game(...))`
installs a fresh session in `ChallengeSent` state (joining and dropping
any previous game thread; the new value is not `None`, so the queue is not
advanced). -/
def installGame (tw li cid : String) (now : Nat) (st : BotState) : BotState :=
  let g : Session := ⟨tw, li, cid, now, GameState.challengeSent, none, none⟩
  { st with store := st.store ++ [(st.nextId, g)], nextId := st.nextId + 1,
            activeGame := some st.nextId, activeThread := none }

/-- Entry of `send_challenge`: the attempt is logged in `issuedLog` and the
"Challenging user ..." message is sent before the server call. -/
def logIssueAttempt (tw li : String) (st : BotState) : BotState :=
  { st with issuedLog := st.issuedLog ++ [(tw, li)],
            msgs := st.msgs ++ [ChatMsg.challenging tw li] }

/-- The `ResponseError` handler of `send_challenge`: report the failure,
then (inside `set_active_game(None)`) clear the slot and thread. -/
def markFailed (tw li : String) (st : BotState) : BotState :=
  { st with msgs := st.msgs ++ [ChatMsg.challengeFailed tw li],
            activeGame := none, activeThread := none }

/-- `Bot.send_challenge`, with the berserk `challenges.create` call replaced
by an oracle list: `some cid` means the server accepts and returns that
challenge id, `none` means it raises `ResponseError`.  On failure the error
is reported and `set_active_game(None)` runs inline: clear the slot, then
pop and re-issue the queue front, consuming the rest of the oracle.  An
exhausted oracle is read as acceptance. -/
def sendChallenge : List (Option String) → String → String → Nat → BotState → BotState
  | [], tw, li, now, st => installGame tw li "" now (logIssueAttempt tw li st)
  | some cid :: _, tw, li, now, st => installGame tw li cid now (logIssueAttempt tw li st)
  | none :: rest, tw, li, now, st =>
    let st2 := markFailed tw li (logIssueAttempt tw li st)
    match st2.challengeQueue with
    | [] => st2
    | (tw2, li2) :: q2 =>
      sendChallenge rest tw2 li2 now
        { st2 with challengeQueue := q2, deqHist := st2.deqHist ++ [(tw2, li2)] }

/-- The state inside `set_active_game(None)` after clearing the slot and
popping the queue front `(tw, li)`, just before it is re-issued. -/
def clearAdvance (tw li : String) (q : List (String × String)) (st : BotState) : BotState :=
  { st with activeGame := none, activeThread := none,
            challengeQueue := q, deqHist := st.deqHist ++ [(tw, li)] }

/-- `set_active_game(None)`: drop the slot and the thread reference, then
advance the queue (pop the front and issue it) when it is non-empty. -/
def setActiveGameNone (ora : List (Option String)) (now : Nat) (st : BotState) : BotState :=
  match st.challengeQueue with
  | [] => { st with activeGame := none, activeThread := none }
  | (tw, li) :: q => sendChallenge ora tw li now (clearAdvance tw li q st)

/-- The result announcement and the stats-collaborator call made by
`get_active_game` for a `FINISHED` session `g`. -/
def finishAnnounce (g : Session) (st : BotState) : BotState :=
  { st with
    msgs := st.msgs ++
      [ChatMsg.gameResult (pyLost g.userWon) g.opponentTwitch g.opponentLichess],
    addGameCalls := st.addGameCalls ++ [(g.opponentTwitch, g.userWon)] }

/-- The timeout announcement made by `get_active_game` for a session still
`CHALLENGE_SENT` past the wait threshold. -/
def timeoutAnnounce (g : Session) (st : BotState) : BotState :=
  { st with msgs := st.msgs ++
    [ChatMsg.challengeTimedOut g.opponentTwitch g.opponentLichess] }

/-- `Bot.get_active_game`: a `FINISHED` active session is announced and
recorded with the stats collaborator and the slot is cleared; a
`CHALLENGE_SENT` session past the wait threshold is announced as timed out
and the slot is cleared; otherwise the slot is returned as is.  The
returned value is `self._active_game` after these effects. -/
def getActiveGame (ora : List (Option String)) (now : Nat) (st : BotState) :
    Option Nat × BotState :=
  match st.activeGame with
  | none => (none, st)
  | some i =>
    match storeGet st.store i with
    | none => (some i, st)
    | some g =>
      if g.state = GameState.finished then
        let st2 := setActiveGameNone ora now (finishAnnounce g st)
        (st2.activeGame, st2)
      else if g.state = GameState.challengeSent ∧
          now - g.startTime > ACCEPT_CHALLENGE_WAIT_SECONDS then
        let st2 := setActiveGameNone ora now (timeoutAnnounce g st)
        (st2.activeGame, st2)
      else (some i, st)

/-- Appending to the challenge queue with the position announcement
(1-based, the queue length after the append). -/
def enqueue (tw li : String) (st : BotState) : BotState :=
  let q := st.challengeQueue ++ [(tw, li)]
  { st with challengeQueue := q, enqHist := st.enqHist ++ [(tw, li)],
            msgs := st.msgs ++ [ChatMsg.queued tw q.length] }

/-- `Bot.challenge_user`: when the queue is empty and the (freshly polled)
active slot is `None`, issue immediately; otherwise enqueue and report the
position.  Python's `and` short-circuits, so the poll only runs when the
queue is empty. -/
def challengeUser (o1 o2 : List (Option String)) (tw li : String) (now : Nat)
    (st : BotState) : BotState :=
  if st.challengeQueue = [] then
    match (getActiveGame o1 now st).1 with
    | none => sendChallenge o2 tw li now (getActiveGame o1 now st).2
    | some _ => enqueue tw li (getActiveGame o1 now st).2
  else enqueue tw li st

/-- `Bot.handle_game_start_event`: poll; if a session is active, announce
the start and hand it to `Game.start` on the game thread (which records
`state = IN_PROGRESS` and the session's own color). -/
def handleGameStartEvent (ora : List (Option String)) (isMyTurn : Bool) (now : Nat)
    (st : BotState) : BotState :=
  match (getActiveGame ora now st).1 with
  | none => (getActiveGame ora now st).2
  | some i =>
    let st1 := (getActiveGame ora now st).2
    match storeGet st1.store i with
    | none => st1
    | some g =>
      let g' := { g with state := GameState.inProgress,
                         color := some (colorOf isMyTurn) }
      { st1 with msgs := st1.msgs ++ [ChatMsg.starting g.opponentTwitch g.opponentLichess],
                 store := storeSet st1.store i g', activeThread := some i }

/-- `Bot.handle_challenge_declined_event`: poll; when the event's challenge
id matches the active session's, announce and clear the slot. -/
def handleChallengeDeclinedEvent (o1 o2 : List (Option String)) (cid : String)
    (now : Nat) (st : BotState) : BotState :=
  match (getActiveGame o1 now st).1 with
  | none => (getActiveGame o1 now st).2
  | some i =>
    let st1 := (getActiveGame o1 now st).2
    match storeGet st1.store i with
    | none => st1
    | some g =>
      if g.challengeId = cid then
        setActiveGameNone o2 now
          { st1 with msgs := st1.msgs ++
            [ChatMsg.declined g.opponentTwitch g.opponentLichess] }
      else st1

/-- The game thread finishing `Game.start`: the session it references gets
`user_won` from the event loop and `state = FINISHED` unconditionally. -/
def threadFinish (events : List GEvent) (st : BotState) : BotState :=
  match st.activeThread with
  | none => st
  | some i =>
    match storeGet st.store i with
    | none => st
    | some g =>
      let g' := { g with state := GameState.finished,
                         userWon := gameLoop (g.color.getD Color.white) events }
      { st with store := storeSet st.store i g' }

/-- One observable orchestrator step: a chat challenge command, a poll of
the active slot (main.py polls every second), a `gameStart` event, a
`challengeDeclined` event, or the game thread finishing. -/
inductive Ev
  | chal (o1 o2 : List (Option String)) (tw li : String) (now : Nat)
  | poll (ora : List (Option String)) (now : Nat)
  | gameStart (ora : List (Option String)) (isMyTurn : Bool) (now : Nat)
  | declinedEv (o1 o2 : List (Option String)) (cid : String) (now : Nat)
  | finishThread (events : List GEvent)

def step : Ev → BotState → BotState
  | Ev.chal o1 o2 tw li now, st => challengeUser o1 o2 tw li now st
  | Ev.poll ora now, st => (getActiveGame ora now st).2
  | Ev.gameStart ora t now, st => handleGameStartEvent ora t now st
  | Ev.declinedEv o1 o2 cid now, st => handleChallengeDeclinedEvent o1 o2 cid now st
  | Ev.finishThread evs, st => threadFinish evs st

inductive Reachable : BotState → Prop
  | init : Reachable initState
  | step (e : Ev) {st : BotState} : Reachable st → Reachable (step e st)

/-- The state reached inside the failure branch of `send_challenge` just
before the recursive re-issue, when the queue front was `(x1, x2)`. -/
def failAdvance (tw li x1 x2 : String) (q : List (String × String))
    (st : BotState) : BotState :=
  { st with msgs := (st.msgs ++ [ChatMsg.challenging tw li]) ++ [ChatMsg.challengeFailed tw li],
            issuedLog := st.issuedLog ++ [(tw, li)],
            activeGame := none, activeThread := none,
            challengeQueue := q, deqHist := st.deqHist ++ [(x1, x2)] }

/-- Whether the session stored under id `i` exists and is not finished. -/
def sessionNonFinished (st : BotState) (i : Nat) : Bool :=
  match storeGet st.store i with
  | none => false
  | some g => decide (g.state ≠ GameState.finished)

/-- The ids of non-Finished sessions the orchestrator still references
(through the active slot or the game thread), without duplicates. -/
def nonFinishedLive (st : BotState) : List Nat :=
  ((st.activeGame.toList ++ st.activeThread.toList).dedup).filter (sessionNonFinished st)

/-- The inductive state invariant of the orchestrator: the game thread only
ever runs the session installed in the active slot, slot and thread ids
are allocated below `nextId`, and the enqueue history splits into the
dequeue history followed by the current queue. -/
def Inv (st : BotState) : Prop :=
  (∀ t, st.activeThread = some t → st.activeGame = some t) ∧
  (∀ i, st.activeGame = some i → i < st.nextId) ∧
  (∀ t, st.activeThread = some t → t < st.nextId) ∧
  st.enqHist = st.deqHist ++ st.challengeQueue

/-- Challenge "t"/"l" accepted, game started, game thread ends on an
`aborted` event, before the next poll. -/
def abortTrace3 : BotState :=
  step (Ev.finishThread [GEvent.aborted])
    (step (Ev.gameStart [] true 0)
      (step (Ev.chal [] [some "cid"] "t" "l" 0) initState))

/-- The next poll of the active slot after the aborted game. -/
def abortTrace4 : BotState := step (Ev.poll [] 1) abortTrace3

/-- Challenge "t"/"l" accepted and pending. -/
def pendingTrace : BotState := step (Ev.chal [] [some "c1"] "t" "l" 0) initState

/-- Pending challenge, then "b"/"bb" enqueued, then the pending challenge
declined, which dequeues and issues "b"/"bb". -/
def fifoTrace : BotState :=
  step (Ev.declinedEv [] [some "c2"] "c1" 0)
    (step (Ev.chal [] [] "b" "bb" 0) pendingTrace)

/-- A state whose queue holds exactly `("b", "bb")`. -/
def queuedState : BotState :=
  { initState with challengeQueue := [("b", "bb")], enqHist := [("b", "bb")] }

/-! ### Helper lemmas -/

lemma mateUserWon_eq (w c : Color) : mateUserWon w c = if w = c then false else true := by
  cases w <;> cases c <;> rfl

/-! #### Unfolding equations for `sendChallenge` -/

lemma sendChallenge_ok_nil (tw li : String) (now : Nat) (st : BotState) :
    sendChallenge [] tw li now st = installGame tw li "" now (logIssueAttempt tw li st) := rfl

lemma sendChallenge_ok (cid : String) (rest : List (Option String)) (tw li : String)
    (now : Nat) (st : BotState) :
    sendChallenge (some cid :: rest) tw li now st
      = installGame tw li cid now (logIssueAttempt tw li st) := rfl

lemma sendChallenge_fail_nil (rest : List (Option String)) (tw li : String) (now : Nat)
    (st : BotState) (hq : st.challengeQueue = []) :
    sendChallenge (none :: rest) tw li now st
      = { st with
            msgs := (st.msgs ++ [ChatMsg.challenging tw li]) ++ [ChatMsg.challengeFailed tw li],
            issuedLog := st.issuedLog ++ [(tw, li)],
            activeGame := none, activeThread := none } := by
  rw [sendChallenge]
  simp only [markFailed, logIssueAttempt, hq]

lemma sendChallenge_fail_cons (rest : List (Option String)) (tw li : String) (now : Nat)
    (st : BotState) (x1 x2 : String) (q : List (String × String))
    (hq : st.challengeQueue = (x1, x2) :: q) :
    sendChallenge (none :: rest) tw li now st
      = sendChallenge rest x1 x2 now (failAdvance tw li x1 x2 q st) := by
  rw [sendChallenge]
  simp only [markFailed, logIssueAttempt, hq, failAdvance]

lemma failAdvance_nextId (tw li x1 x2 : String) (q : List (String × String))
    (st : BotState) : (failAdvance tw li x1 x2 q st).nextId = st.nextId := rfl

lemma failAdvance_enqHist (tw li x1 x2 : String) (q : List (String × String))
    (st : BotState) : (failAdvance tw li x1 x2 q st).enqHist = st.enqHist := rfl

lemma failAdvance_deqHist (tw li x1 x2 : String) (q : List (String × String))
    (st : BotState) :
    (failAdvance tw li x1 x2 q st).deqHist = st.deqHist ++ [(x1, x2)] := rfl

lemma failAdvance_issuedLog (tw li x1 x2 : String) (q : List (String × String))
    (st : BotState) :
    (failAdvance tw li x1 x2 q st).issuedLog = st.issuedLog ++ [(tw, li)] := rfl

lemma failAdvance_msgs (tw li x1 x2 : String) (q : List (String × String))
    (st : BotState) :
    (failAdvance tw li x1 x2 q st).msgs
      = (st.msgs ++ [ChatMsg.challenging tw li]) ++ [ChatMsg.challengeFailed tw li] := rfl

lemma failAdvance_queue (tw li x1 x2 : String) (q : List (String × String))
    (st : BotState) : (failAdvance tw li x1 x2 q st).challengeQueue = q := rfl

/-! #### Field-level facts about `sendChallenge` -/

lemma sendChallenge_thread (ora : List (Option String)) :
    ∀ tw li now st, (sendChallenge ora tw li now st).activeThread = none := by
  induction ora with
  | nil => intro tw li now st; rfl
  | cons o rest ih =>
    cases o with
    | some cid => intro tw li now st; rfl
    | none =>
      intro tw li now st
      cases hq : st.challengeQueue with
      | nil => rw [sendChallenge_fail_nil rest tw li now st hq]
      | cons x q =>
        obtain ⟨x1, x2⟩ := x
        rw [sendChallenge_fail_cons rest tw li now st x1 x2 q hq]
        exact ih x1 x2 now _

lemma sendChallenge_active (ora : List (Option String)) :
    ∀ tw li now st, (sendChallenge ora tw li now st).activeGame = none ∨
      ∃ j, (sendChallenge ora tw li now st).activeGame = some j ∧
        st.nextId ≤ j ∧ j < (sendChallenge ora tw li now st).nextId := by
  induction ora with
  | nil =>
    intro tw li now st
    exact Or.inr ⟨st.nextId, rfl, le_refl _, Nat.lt_succ_self _⟩
  | cons o rest ih =>
    cases o with
    | some cid =>
      intro tw li now st
      exact Or.inr ⟨st.nextId, rfl, le_refl _, Nat.lt_succ_self _⟩
    | none =>
      intro tw li now st
      cases hq : st.challengeQueue with
      | nil =>
        rw [sendChallenge_fail_nil rest tw li now st hq]
        exact Or.inl rfl
      | cons x q =>
        obtain ⟨x1, x2⟩ := x
        rw [sendChallenge_fail_cons rest tw li now st x1 x2 q hq]
        exact ih x1 x2 now _

lemma sendChallenge_nextId (ora : List (Option String)) :
    ∀ tw li now st, st.nextId ≤ (sendChallenge ora tw li now st).nextId := by
  induction ora with
  | nil => intro tw li now st; exact Nat.le_succ _
  | cons o rest ih =>
    cases o with
    | some cid => intro tw li now st; exact Nat.le_succ _
    | none =>
      intro tw li now st
      cases hq : st.challengeQueue with
      | nil =>
        rw [sendChallenge_fail_nil rest tw li now st hq]
      | cons x q =>
        obtain ⟨x1, x2⟩ := x
        rw [sendChallenge_fail_cons rest tw li now st x1 x2 q hq]
        have h := ih x1 x2 now (failAdvance tw li x1 x2 q st)
        rwa [failAdvance_nextId] at h

lemma sendChallenge_enqHist (ora : List (Option String)) :
    ∀ tw li now st, (sendChallenge ora tw li now st).enqHist = st.enqHist := by
  induction ora with
  | nil => intro tw li now st; rfl
  | cons o rest ih =>
    cases o with
    | some cid => intro tw li now st; rfl
    | none =>
      intro tw li now st
      cases hq : st.challengeQueue with
      | nil => rw [sendChallenge_fail_nil rest tw li now st hq]
      | cons x q =>
        obtain ⟨x1, x2⟩ := x
        rw [sendChallenge_fail_cons rest tw li now st x1 x2 q hq]
        exact ih x1 x2 now _

lemma sendChallenge_deqHist (ora : List (Option String)) :
    ∀ tw li now st, ∃ d, (sendChallenge ora tw li now st).deqHist = st.deqHist ++ d := by
  induction ora with
  | nil => intro tw li now st; exact ⟨[], by simp only [List.append_nil]; rfl⟩
  | cons o rest ih =>
    cases o with
    | some cid => intro tw li now st; exact ⟨[], by simp only [List.append_nil]; rfl⟩
    | none =>
      intro tw li now st
      cases hq : st.challengeQueue with
      | nil =>
        rw [sendChallenge_fail_nil rest tw li now st hq]
        exact ⟨[], by rw [List.append_nil]⟩
      | cons x q =>
        obtain ⟨x1, x2⟩ := x
        rw [sendChallenge_fail_cons rest tw li now st x1 x2 q hq]
        obtain ⟨d, hd⟩ := ih x1 x2 now (failAdvance tw li x1 x2 q st)
        refine ⟨(x1, x2) :: d, ?_⟩
        rw [hd, failAdvance_deqHist, List.append_assoc, List.singleton_append]

lemma sendChallenge_issuedLog (ora : List (Option String)) :
    ∀ tw li now st, ∃ e,
      (sendChallenge ora tw li now st).issuedLog = st.issuedLog ++ (tw, li) :: e := by
  induction ora with
  | nil => intro tw li now st; exact ⟨[], rfl⟩
  | cons o rest ih =>
    cases o with
    | some cid => intro tw li now st; exact ⟨[], rfl⟩
    | none =>
      intro tw li now st
      cases hq : st.challengeQueue with
      | nil =>
        rw [sendChallenge_fail_nil rest tw li now st hq]
        exact ⟨[], rfl⟩
      | cons x q =>
        obtain ⟨x1, x2⟩ := x
        rw [sendChallenge_fail_cons rest tw li now st x1 x2 q hq]
        obtain ⟨e, he⟩ := ih x1 x2 now (failAdvance tw li x1 x2 q st)
        refine ⟨(x1, x2) :: e, ?_⟩
        rw [he, failAdvance_issuedLog, List.append_assoc, List.singleton_append]

lemma sendChallenge_msgs (ora : List (Option String)) :
    ∀ tw li now st, ∃ m,
      (sendChallenge ora tw li now st).msgs = st.msgs ++ ChatMsg.challenging tw li :: m := by
  induction ora with
  | nil => intro tw li now st; exact ⟨[], rfl⟩
  | cons o rest ih =>
    cases o with
    | some cid => intro tw li now st; exact ⟨[], rfl⟩
    | none =>
      intro tw li now st
      cases hq : st.challengeQueue with
      | nil =>
        rw [sendChallenge_fail_nil rest tw li now st hq]
        exact ⟨[ChatMsg.challengeFailed tw li], by simp⟩
      | cons x q =>
        obtain ⟨x1, x2⟩ := x
        rw [sendChallenge_fail_cons rest tw li now st x1 x2 q hq]
        obtain ⟨m, hm⟩ := ih x1 x2 now (failAdvance tw li x1 x2 q st)
        refine ⟨ChatMsg.challengeFailed tw li :: ChatMsg.challenging x1 x2 :: m, ?_⟩
        rw [hm, failAdvance_msgs]
        simp

lemma sendChallenge_queueInv (ora : List (Option String)) :
    ∀ tw li now st, st.enqHist = st.deqHist ++ st.challengeQueue →
      (sendChallenge ora tw li now st).enqHist
        = (sendChallenge ora tw li now st).deqHist
          ++ (sendChallenge ora tw li now st).challengeQueue := by
  induction ora with
  | nil => intro tw li now st h; exact h
  | cons o rest ih =>
    cases o with
    | some cid => intro tw li now st h; exact h
    | none =>
      intro tw li now st h
      cases hq : st.challengeQueue with
      | nil =>
        rw [sendChallenge_fail_nil rest tw li now st hq]
        simpa [hq] using h
      | cons x q =>
        obtain ⟨x1, x2⟩ := x
        rw [sendChallenge_fail_cons rest tw li now st x1 x2 q hq]
        refine ih x1 x2 now (failAdvance tw li x1 x2 q st) ?_
        rw [failAdvance_enqHist, failAdvance_deqHist, failAdvance_queue, h, hq]
        simp

/-! #### Facts about `setActiveGameNone` -/

lemma clearAdvance_nextId (tw li : String) (q : List (String × String)) (st : BotState) :
    (clearAdvance tw li q st).nextId = st.nextId := rfl

lemma clearAdvance_enqHist (tw li : String) (q : List (String × String)) (st : BotState) :
    (clearAdvance tw li q st).enqHist = st.enqHist := rfl

lemma clearAdvance_deqHist (tw li : String) (q : List (String × String)) (st : BotState) :
    (clearAdvance tw li q st).deqHist = st.deqHist ++ [(tw, li)] := rfl

lemma clearAdvance_issuedLog (tw li : String) (q : List (String × String)) (st : BotState) :
    (clearAdvance tw li q st).issuedLog = st.issuedLog := rfl

lemma clearAdvance_msgs (tw li : String) (q : List (String × String)) (st : BotState) :
    (clearAdvance tw li q st).msgs = st.msgs := rfl

lemma clearAdvance_queue (tw li : String) (q : List (String × String)) (st : BotState) :
    (clearAdvance tw li q st).challengeQueue = q := rfl

lemma setActiveGameNone_nil (ora : List (Option String)) (now : Nat) (st : BotState)
    (hq : st.challengeQueue = []) :
    setActiveGameNone ora now st = { st with activeGame := none, activeThread := none } := by
  simp only [setActiveGameNone, hq]

lemma setActiveGameNone_cons (ora : List (Option String)) (now : Nat) (st : BotState)
    (x1 x2 : String) (q : List (String × String))
    (hq : st.challengeQueue = (x1, x2) :: q) :
    setActiveGameNone ora now st = sendChallenge ora x1 x2 now (clearAdvance x1 x2 q st) := by
  simp only [setActiveGameNone, hq]

lemma setActiveGameNone_thread (ora : List (Option String)) (now : Nat) (st : BotState) :
    (setActiveGameNone ora now st).activeThread = none := by
  cases hq : st.challengeQueue with
  | nil => rw [setActiveGameNone_nil ora now st hq]
  | cons x q =>
    obtain ⟨x1, x2⟩ := x
    rw [setActiveGameNone_cons ora now st x1 x2 q hq]
    exact sendChallenge_thread ora x1 x2 now _

lemma setActiveGameNone_active (ora : List (Option String)) (now : Nat) (st : BotState) :
    (setActiveGameNone ora now st).activeGame = none ∨
      ∃ j, (setActiveGameNone ora now st).activeGame = some j ∧
        st.nextId ≤ j ∧ j < (setActiveGameNone ora now st).nextId := by
  cases hq : st.challengeQueue with
  | nil =>
    rw [setActiveGameNone_nil ora now st hq]
    exact Or.inl rfl
  | cons x q =>
    obtain ⟨x1, x2⟩ := x
    rw [setActiveGameNone_cons ora now st x1 x2 q hq]
    have h := sendChallenge_active ora x1 x2 now (clearAdvance x1 x2 q st)
    rwa [clearAdvance_nextId] at h

lemma setActiveGameNone_enqHist (ora : List (Option String)) (now : Nat) (st : BotState) :
    (setActiveGameNone ora now st).enqHist = st.enqHist := by
  cases hq : st.challengeQueue with
  | nil => rw [setActiveGameNone_nil ora now st hq]
  | cons x q =>
    obtain ⟨x1, x2⟩ := x
    rw [setActiveGameNone_cons ora now st x1 x2 q hq]
    exact sendChallenge_enqHist ora x1 x2 now _

lemma setActiveGameNone_msgs (ora : List (Option String)) (now : Nat) (st : BotState) :
    ∃ m, (setActiveGameNone ora now st).msgs = st.msgs ++ m := by
  cases hq : st.challengeQueue with
  | nil =>
    rw [setActiveGameNone_nil ora now st hq]
    exact ⟨[], by simp only [List.append_nil]⟩
  | cons x q =>
    obtain ⟨x1, x2⟩ := x
    rw [setActiveGameNone_cons ora now st x1 x2 q hq]
    obtain ⟨m, hm⟩ := sendChallenge_msgs ora x1 x2 now (clearAdvance x1 x2 q st)
    exact ⟨ChatMsg.challenging x1 x2 :: m, by rw [hm, clearAdvance_msgs]⟩

lemma setActiveGameNone_queueInv (ora : List (Option String)) (now : Nat) (st : BotState)
    (h : st.enqHist = st.deqHist ++ st.challengeQueue) :
    (setActiveGameNone ora now st).enqHist
      = (setActiveGameNone ora now st).deqHist
        ++ (setActiveGameNone ora now st).challengeQueue := by
  cases hq : st.challengeQueue with
  | nil =>
    rw [setActiveGameNone_nil ora now st hq]
    simpa [hq] using h
  | cons x q =>
    obtain ⟨x1, x2⟩ := x
    rw [setActiveGameNone_cons ora now st x1 x2 q hq]
    refine sendChallenge_queueInv ora x1 x2 now (clearAdvance x1 x2 q st) ?_
    rw [clearAdvance_enqHist, clearAdvance_deqHist, clearAdvance_queue, h, hq]
    simp

lemma setActiveGameNone_advance (ora : List (Option String)) (now : Nat) (st : BotState)
    (x1 x2 : String) (q : List (String × String))
    (hq : st.challengeQueue = (x1, x2) :: q) :
    (setActiveGameNone ora now st).deqHist[st.deqHist.length]? = some (x1, x2) ∧
    (setActiveGameNone ora now st).issuedLog[st.issuedLog.length]? = some (x1, x2) := by
  rw [setActiveGameNone_cons ora now st x1 x2 q hq]
  obtain ⟨d, hd⟩ := sendChallenge_deqHist ora x1 x2 now (clearAdvance x1 x2 q st)
  obtain ⟨e, he⟩ := sendChallenge_issuedLog ora x1 x2 now (clearAdvance x1 x2 q st)
  constructor
  · rw [hd, clearAdvance_deqHist, List.append_assoc,
      List.getElem?_append_right (Nat.le_refl _)]
    simp
  · rw [he, clearAdvance_issuedLog,
      List.getElem?_append_right (Nat.le_refl _)]
    simp

/-- The inductive invariant holds after `set_active_game(None)` as soon as
the queue bookkeeping held before. -/
lemma setActiveGameNone_inv (ora : List (Option String)) (now : Nat) (st : BotState)
    (h4 : st.enqHist = st.deqHist ++ st.challengeQueue) :
    Inv (setActiveGameNone ora now st) := by
  refine ⟨?_, ?_, ?_, setActiveGameNone_queueInv ora now st h4⟩
  · intro t ht
    rw [setActiveGameNone_thread] at ht
    exact Option.noConfusion ht
  · intro i hi
    rcases setActiveGameNone_active ora now st with hnone | ⟨j, hj, _, hlt⟩
    · rw [hnone] at hi
      exact Option.noConfusion hi
    · rw [hj] at hi
      exact Option.some.inj hi ▸ hlt
  · intro t ht
    rw [setActiveGameNone_thread] at ht
    exact Option.noConfusion ht

lemma sendChallenge_inv (ora : List (Option String)) (tw li : String) (now : Nat)
    (st : BotState) (h4 : st.enqHist = st.deqHist ++ st.challengeQueue) :
    Inv (sendChallenge ora tw li now st) := by
  refine ⟨?_, ?_, ?_, sendChallenge_queueInv ora tw li now st h4⟩
  · intro t ht
    rw [sendChallenge_thread] at ht
    exact Option.noConfusion ht
  · intro i hi
    rcases sendChallenge_active ora tw li now st with hnone | ⟨j, hj, _, hlt⟩
    · rw [hnone] at hi
      exact Option.noConfusion hi
    · rw [hj] at hi
      exact Option.some.inj hi ▸ hlt
  · intro t ht
    rw [sendChallenge_thread] at ht
    exact Option.noConfusion ht

/-! #### Facts about `getActiveGame` -/

lemma getActiveGame_noneSlot (ora : List (Option String)) (now : Nat) (st : BotState)
    (h : st.activeGame = none) : getActiveGame ora now st = (none, st) := by
  simp only [getActiveGame, h]

lemma getActiveGame_noStore (ora : List (Option String)) (now : Nat) (st : BotState)
    (i : Nat) (ha : st.activeGame = some i) (hs : storeGet st.store i = none) :
    getActiveGame ora now st = (some i, st) := by
  simp only [getActiveGame, ha, hs]

lemma getActiveGame_finished (ora : List (Option String)) (now : Nat) (st : BotState)
    (i : Nat) (g : Session) (ha : st.activeGame = some i)
    (hs : storeGet st.store i = some g) (hf : g.state = GameState.finished) :
    getActiveGame ora now st
      = ((setActiveGameNone ora now (finishAnnounce g st)).activeGame,
         setActiveGameNone ora now (finishAnnounce g st)) := by
  simp only [getActiveGame, ha, hs, if_pos hf]

lemma getActiveGame_timeout (ora : List (Option String)) (now : Nat) (st : BotState)
    (i : Nat) (g : Session) (ha : st.activeGame = some i)
    (hs : storeGet st.store i = some g) (hcs : g.state = GameState.challengeSent)
    (ht : now - g.startTime > ACCEPT_CHALLENGE_WAIT_SECONDS) :
    getActiveGame ora now st
      = ((setActiveGameNone ora now (timeoutAnnounce g st)).activeGame,
         setActiveGameNone ora now (timeoutAnnounce g st)) := by
  have hnf : ¬ g.state = GameState.finished := by simp [hcs]
  simp only [getActiveGame, ha, hs, if_neg hnf, if_pos (And.intro hcs ht)]

lemma getActiveGame_live (ora : List (Option String)) (now : Nat) (st : BotState)
    (i : Nat) (g : Session) (ha : st.activeGame = some i)
    (hs : storeGet st.store i = some g) (hnf : ¬ g.state = GameState.finished)
    (hnt : ¬ (g.state = GameState.challengeSent ∧
      now - g.startTime > ACCEPT_CHALLENGE_WAIT_SECONDS)) :
    getActiveGame ora now st = (some i, st) := by
  simp only [getActiveGame, ha, hs, if_neg hnf, if_neg hnt]

lemma getActiveGame_fst (ora : List (Option String)) (now : Nat) (st : BotState) :
    (getActiveGame ora now st).1 = (getActiveGame ora now st).2.activeGame := by
  cases ha : st.activeGame with
  | none =>
    rw [getActiveGame_noneSlot ora now st ha]
    exact ha.symm
  | some i =>
    cases hs : storeGet st.store i with
    | none =>
      rw [getActiveGame_noStore ora now st i ha hs]
      exact ha.symm
    | some g =>
      by_cases hf : g.state = GameState.finished
      · rw [getActiveGame_finished ora now st i g ha hs hf]
      · by_cases hts : g.state = GameState.challengeSent ∧
            now - g.startTime > ACCEPT_CHALLENGE_WAIT_SECONDS
        · rw [getActiveGame_timeout ora now st i g ha hs hts.1 hts.2]
        · rw [getActiveGame_live ora now st i g ha hs hf hts]
          exact ha.symm

lemma getActiveGame_enqHist (ora : List (Option String)) (now : Nat) (st : BotState) :
    (getActiveGame ora now st).2.enqHist = st.enqHist := by
  cases ha : st.activeGame with
  | none => rw [getActiveGame_noneSlot ora now st ha]
  | some i =>
    cases hs : storeGet st.store i with
    | none => rw [getActiveGame_noStore ora now st i ha hs]
    | some g =>
      by_cases hf : g.state = GameState.finished
      · rw [getActiveGame_finished ora now st i g ha hs hf]
        exact setActiveGameNone_enqHist ora now _
      · by_cases hts : g.state = GameState.challengeSent ∧
            now - g.startTime > ACCEPT_CHALLENGE_WAIT_SECONDS
        · rw [getActiveGame_timeout ora now st i g ha hs hts.1 hts.2]
          exact setActiveGameNone_enqHist ora now _
        · rw [getActiveGame_live ora now st i g ha hs hf hts]

lemma getActiveGame_inv (ora : List (Option String)) (now : Nat) (st : BotState)
    (h : Inv st) : Inv (getActiveGame ora now st).2 := by
  cases ha : st.activeGame with
  | none =>
    rw [getActiveGame_noneSlot ora now st ha]
    exact h
  | some i =>
    cases hs : storeGet st.store i with
    | none =>
      rw [getActiveGame_noStore ora now st i ha hs]
      exact h
    | some g =>
      by_cases hf : g.state = GameState.finished
      · rw [getActiveGame_finished ora now st i g ha hs hf]
        exact setActiveGameNone_inv ora now _ h.2.2.2
      · by_cases hts : g.state = GameState.challengeSent ∧
            now - g.startTime > ACCEPT_CHALLENGE_WAIT_SECONDS
        · rw [getActiveGame_timeout ora now st i g ha hs hts.1 hts.2]
          exact setActiveGameNone_inv ora now _ h.2.2.2
        · rw [getActiveGame_live ora now st i g ha hs hf hts]
          exact h

/-! #### Invariant preservation by every orchestrator operation -/

lemma enqueue_inv (tw li : String) (st : BotState) (h : Inv st) :
    Inv (enqueue tw li st) := by
  obtain ⟨h1, h2, h3, h4⟩ := h
  refine ⟨h1, h2, h3, ?_⟩
  show st.enqHist ++ [(tw, li)] = st.deqHist ++ (st.challengeQueue ++ [(tw, li)])
  rw [h4, List.append_assoc]

lemma challengeUser_inv (o1 o2 : List (Option String)) (tw li : String) (now : Nat)
    (st : BotState) (h : Inv st) : Inv (challengeUser o1 o2 tw li now st) := by
  by_cases hq : st.challengeQueue = []
  · have hpoll : Inv (getActiveGame o1 now st).2 := getActiveGame_inv o1 now st h
    cases hga : (getActiveGame o1 now st).1 with
    | none =>
      have he : challengeUser o1 o2 tw li now st
          = sendChallenge o2 tw li now (getActiveGame o1 now st).2 := by
        simp only [challengeUser, if_pos hq, hga]
      rw [he]
      exact sendChallenge_inv o2 tw li now _ hpoll.2.2.2
    | some j =>
      have he : challengeUser o1 o2 tw li now st
          = enqueue tw li (getActiveGame o1 now st).2 := by
        simp only [challengeUser, if_pos hq, hga]
      rw [he]
      exact enqueue_inv tw li _ hpoll
  · have he : challengeUser o1 o2 tw li now st = enqueue tw li st := by
      simp only [challengeUser, if_neg hq]
    rw [he]
    exact enqueue_inv tw li st h

lemma handleGameStartEvent_inv (ora : List (Option String)) (t : Bool) (now : Nat)
    (st : BotState) (h : Inv st) : Inv (handleGameStartEvent ora t now st) := by
  have hpoll : Inv (getActiveGame ora now st).2 := getActiveGame_inv ora now st h
  cases hga : (getActiveGame ora now st).1 with
  | none =>
    have he : handleGameStartEvent ora t now st = (getActiveGame ora now st).2 := by
      simp only [handleGameStartEvent, hga]
    rw [he]
    exact hpoll
  | some i =>
    have hact : (getActiveGame ora now st).2.activeGame = some i := by
      rw [← getActiveGame_fst, hga]
    cases hs : storeGet (getActiveGame ora now st).2.store i with
    | none =>
      have he : handleGameStartEvent ora t now st = (getActiveGame ora now st).2 := by
        simp only [handleGameStartEvent, hga, hs]
      rw [he]
      exact hpoll
    | some g =>
      have he : handleGameStartEvent ora t now st
          = { (getActiveGame ora now st).2 with
              msgs := (getActiveGame ora now st).2.msgs
                ++ [ChatMsg.starting g.opponentTwitch g.opponentLichess],
              store := storeSet (getActiveGame ora now st).2.store i
                ({ g with state := GameState.inProgress, color := some (colorOf t) }),
              activeThread := some i } := by
        simp only [handleGameStartEvent, hga, hs]
      rw [he]
      obtain ⟨h1, h2, h3, h4⟩ := hpoll
      refine ⟨?_, h2, ?_, h4⟩
      · intro t' ht'
        have hti : t' = i := (Option.some.inj ht').symm
        rw [hti]
        exact hact
      · intro t' ht'
        have hti : t' = i := (Option.some.inj ht').symm
        rw [hti]
        exact h2 i hact

lemma handleChallengeDeclinedEvent_inv (o1 o2 : List (Option String)) (cid : String)
    (now : Nat) (st : BotState) (h : Inv st) :
    Inv (handleChallengeDeclinedEvent o1 o2 cid now st) := by
  have hpoll : Inv (getActiveGame o1 now st).2 := getActiveGame_inv o1 now st h
  cases hga : (getActiveGame o1 now st).1 with
  | none =>
    have he : handleChallengeDeclinedEvent o1 o2 cid now st = (getActiveGame o1 now st).2 := by
      simp only [handleChallengeDeclinedEvent, hga]
    rw [he]
    exact hpoll
  | some i =>
    cases hs : storeGet (getActiveGame o1 now st).2.store i with
    | none =>
      have he : handleChallengeDeclinedEvent o1 o2 cid now st = (getActiveGame o1 now st).2 := by
        simp only [handleChallengeDeclinedEvent, hga, hs]
      rw [he]
      exact hpoll
    | some g =>
      by_cases hc : g.challengeId = cid
      · have he : handleChallengeDeclinedEvent o1 o2 cid now st
            = setActiveGameNone o2 now
              { (getActiveGame o1 now st).2 with
                msgs := (getActiveGame o1 now st).2.msgs
                  ++ [ChatMsg.declined g.opponentTwitch g.opponentLichess] } := by
          simp only [handleChallengeDeclinedEvent, hga, hs, if_pos hc]
        rw [he]
        exact setActiveGameNone_inv o2 now _ hpoll.2.2.2
      · have he : handleChallengeDeclinedEvent o1 o2 cid now st = (getActiveGame o1 now st).2 := by
          simp only [handleChallengeDeclinedEvent, hga, hs, if_neg hc]
        rw [he]
        exact hpoll

lemma threadFinish_inv (evs : List GEvent) (st : BotState) (h : Inv st) :
    Inv (threadFinish evs st) := by
  cases ht : st.activeThread with
  | none =>
    have he : threadFinish evs st = st := by
      simp only [threadFinish, ht]
    rw [he]
    exact h
  | some i =>
    cases hs : storeGet st.store i with
    | none =>
      have he : threadFinish evs st = st := by
        simp only [threadFinish, ht, hs]
      rw [he]
      exact h
    | some g =>
      have he : threadFinish evs st = { st with store := storeSet st.store i ({ g with state := GameState.finished, userWon := gameLoop (g.color.getD Color.white) evs }) } := by
        simp only [threadFinish, ht, hs]
      rw [he]
      exact ⟨h.1, h.2.1, h.2.2.1, h.2.2.2⟩

/-- Every reachable orchestrator state satisfies the inductive invariant. -/
lemma reachable_inv (st : BotState) (h : Reachable st) : Inv st := by
  induction h with
  | init =>
    exact ⟨fun t ht => Option.noConfusion ht, fun i hi => Option.noConfusion hi,
      fun t ht => Option.noConfusion ht, rfl⟩
  | step e hst ih =>
    cases e with
    | chal o1 o2 tw li now => exact challengeUser_inv o1 o2 tw li now _ ih
    | poll ora now => exact getActiveGame_inv ora now _ ih
    | gameStart ora t now => exact handleGameStartEvent_inv ora t now _ ih
    | declinedEv o1 o2 cid now => exact handleChallengeDeclinedEvent_inv o1 o2 cid now _ ih
    | finishThread evs => exact threadFinish_inv evs _ ih

/-! ### C1 -/

/-- C1 counterexample: a game that ends with a mate event whose declared
winner color (white) equals the session's own color (white) records
`user_won = False`, not `True` as the claim states. -/
theorem c1_counterexample :
    gameLoop Color.white [GEvent.mate Color.white] = some false ∧
    gameLoop Color.white [GEvent.mate Color.white] ≠ some true := by
  exact ⟨rfl, by decide⟩

/-- C1 amended: for every game that ends with a mate event, if the declared
winner color equals the session's own recorded color then `user_won` is set
to false, and otherwise to true. -/
theorem c1_thm (c w : Color) (pre rest : List GEvent)
    (h : ∀ e ∈ pre, e = GEvent.other) :
    gameLoop c (pre ++ GEvent.mate w :: rest) = some (if w = c then false else true) := by
  induction pre with
  | nil => simp [gameLoop, mateUserWon_eq]
  | cons e pre ih =>
    have he : e = GEvent.other := h e (List.mem_cons_self e pre)
    subst he
    simpa [gameLoop] using ih (fun e' h' => h e' (List.mem_cons_of_mem _ h'))

/-- C1 witness: the amended statement evaluated where the bot is white and
black mates, so the opposing side won and `user_won = true`. -/
theorem c1_witness :
    (∀ e ∈ ([] : List GEvent), e = GEvent.other) ∧
    gameLoop Color.white ([] ++ GEvent.mate Color.black :: []) = some true :=
  ⟨by simp, c1_thm Color.white Color.black [] [] (by simp)⟩

/-! ### C2 -/

/-- C2: after an `aborted` event the session is `FINISHED` with no outcome
(`user_won = None`), yet the next `get_active_game` poll still invokes
`user_database.add_game` — with the undefined outcome — and announces a
result, because the `FINISHED` branch never checks `user_won`.  (In the
Python source `int(None)` then raises `TypeError`.) -/
theorem c2_thm :
    storeGet abortTrace3.store 0
      = some ⟨"t", "l", "cid", 0, GameState.finished, some Color.white, none⟩ ∧
    abortTrace4.addGameCalls = [("t", none)] ∧
    ChatMsg.gameResult false "t" "l" ∈ abortTrace4.msgs := by
  refine ⟨rfl, rfl, ?_⟩
  decide

/-! ### C8 -/

/-- C8 counterexample: a sender whose first message did not match a legal
move is not marked as having voted, so that sender's second message still
changes the tally — refuting "any second message from the same voter in
the same window leaves the tally unchanged". -/
theorem c8_counterexample :
    (processMessages ["e4", "d4"] [("alice", "xx")]).numVotes = [] ∧
    (processMessages ["e4", "d4"] [("alice", "xx"), ("alice", "e4")]).numVotes
      = [("e4", 1)] := by
  exact ⟨rfl, rfl⟩

lemma lookupCount_eq_none {nv : List (String × Nat)} {k : String} :
    lookupCount nv k = none ↔ k ∉ keys nv := by
  induction nv with
  | nil => simp [lookupCount, keys]
  | cons p rest ih =>
    obtain ⟨k', v⟩ := p
    by_cases h : k' = k
    · subst h
      simp [lookupCount, keys]
    · simp [lookupCount, keys, h, ih, Ne.symm h]

lemma lookupCount_cons (k' k : String) (v : Nat) (rest : List (String × Nat)) :
    lookupCount ((k', v) :: rest) k = if k' = k then some v else lookupCount rest k := rfl

lemma bumpApp_eq (k : String) (v : Nat) :
    (if (k, v).1 = k then ((k, v).1, (k, v).2 + 1) else (k, v)) = (k, v + 1) := by
  simp

lemma bumpApp_ne {k k' : String} (h : k' ≠ k) (v : Nat) :
    (if (k', v).1 = k then ((k', v).1, (k', v).2 + 1) else (k', v)) = (k', v) := by
  simp [h]

lemma lookupCount_map_bumpKey (k : String) (nv : List (String × Nat)) :
    lookupCount (nv.map (fun p => if p.1 = k then (p.1, p.2 + 1) else p)) k
      = (lookupCount nv k).map (· + 1) := by
  induction nv with
  | nil => rfl
  | cons p rest ih =>
    obtain ⟨k', v⟩ := p
    by_cases h : k' = k
    · subst h
      rw [List.map_cons, bumpApp_eq, lookupCount_cons, lookupCount_cons,
        if_pos rfl, if_pos rfl]
      rfl
    · rw [List.map_cons, bumpApp_ne h, lookupCount_cons, lookupCount_cons,
        if_neg h, if_neg h, ih]

lemma lookupCount_map_bumpKey_ne (k t' : String) (hne : t' ≠ k)
    (nv : List (String × Nat)) :
    lookupCount (nv.map (fun p => if p.1 = k then (p.1, p.2 + 1) else p)) t'
      = lookupCount nv t' := by
  induction nv with
  | nil => rfl
  | cons p rest ih =>
    obtain ⟨k', v⟩ := p
    by_cases h : k' = k
    · subst h
      have hkt : ¬ k' = t' := fun he => hne he.symm
      rw [List.map_cons, bumpApp_eq, lookupCount_cons, lookupCount_cons,
        if_neg hkt, if_neg hkt, ih]
    · rw [List.map_cons, bumpApp_ne h, lookupCount_cons, lookupCount_cons, ih]

lemma lookupCount_append_singleton_ne (nv : List (String × Nat)) (k t' : String)
    (v : Nat) (hne : t' ≠ k) :
    lookupCount (nv ++ [(k, v)]) t' = lookupCount nv t' := by
  induction nv with
  | nil =>
    have hkt : ¬ k = t' := fun he => hne he.symm
    simp [lookupCount, hkt]
  | cons p rest ih =>
    obtain ⟨k', v'⟩ := p
    rw [List.cons_append, lookupCount_cons, lookupCount_cons, ih]

lemma lookupCount_append_right {nv1 : List (String × Nat)} {k : String}
    (h : k ∉ keys nv1) (nv2 : List (String × Nat)) :
    lookupCount (nv1 ++ nv2) k = lookupCount nv2 k := by
  induction nv1 with
  | nil => rfl
  | cons p rest ih =>
    obtain ⟨k', v⟩ := p
    have hk : k' ≠ k := by
      intro he
      exact h (by simp [keys, he])
    have hrest : k ∉ keys rest := fun hm => h (by simp [keys] at hm ⊢; exact Or.inr hm)
    simp [lookupCount, hk, ih hrest]

lemma lookupCount_bump (nv : List (String × Nat)) (k : String) :
    lookupCount (bump nv k) k = some ((lookupCount nv k).getD 0 + 1) := by
  unfold bump
  by_cases h : k ∈ keys nv
  · simp only [if_pos h]
    rw [lookupCount_map_bumpKey]
    cases hl : lookupCount nv k with
    | none => exact absurd h (lookupCount_eq_none.mp hl)
    | some v => simp
  · simp only [if_neg h]
    rw [lookupCount_map_bumpKey, lookupCount_append_right h [(k, 0)],
      lookupCount_eq_none.mpr h]
    simp [lookupCount]

lemma lookupCount_bump_ne (nv : List (String × Nat)) (k t' : String) (hne : t' ≠ k) :
    lookupCount (bump nv k) t' = lookupCount nv t' := by
  unfold bump
  by_cases h : k ∈ keys nv
  · simp only [if_pos h]
    exact lookupCount_map_bumpKey_ne k t' hne nv
  · simp only [if_neg h]
    rw [lookupCount_map_bumpKey_ne k t' hne,
      lookupCount_append_singleton_ne nv k t' 0 hne]

/-- C8 amended: a message increments the matched move's tally (leaving all
other tallies unchanged) and marks the sender as having voted if and only
if the text matches a legal move and the sender has not already voted;
consequently any further message from a sender whose earlier message was
counted leaves the window state unchanged.  (A second message from a
sender whose first message was not counted can still change the tally —
see the counterexample.) -/
theorem c8_thm (legal : List String) (st : VoteState) (u t : String) :
    (u ∉ st.users → t ∈ legal →
      lookupCount (onMessage legal st u t).numVotes t
          = some ((lookupCount st.numVotes t).getD 0 + 1) ∧
      u ∈ (onMessage legal st u t).users ∧
      (∀ t', t' ≠ t → lookupCount (onMessage legal st u t).numVotes t'
          = lookupCount st.numVotes t') ∧
      (∀ t2, onMessage legal (onMessage legal st u t) u t2 = onMessage legal st u t)) ∧
    (u ∈ st.users ∨ t ∉ legal → onMessage legal st u t = st) := by
  constructor
  · intro hu ht
    have hcond : u ∉ st.users ∧ t ∈ legal := ⟨hu, ht⟩
    refine ⟨?_, ?_, ?_, ?_⟩
    · simp only [onMessage, if_pos hcond]
      exact lookupCount_bump st.numVotes t
    · simp [onMessage, if_pos hcond]
    · intro t' hne
      simp only [onMessage, if_pos hcond]
      exact lookupCount_bump_ne st.numVotes t t' hne
    · intro t2
      have hmem : u ∈ (onMessage legal st u t).users := by
        simp [onMessage, if_pos hcond]
      have hnc : ¬ (u ∉ (onMessage legal st u t).users ∧ t2 ∈ legal) := by
        intro hc
        exact hc.1 hmem
      conv_lhs => rw [onMessage]
      rw [if_neg hnc]
  · intro h
    have : ¬ (u ∉ st.users ∧ t ∈ legal) := by
      intro hc
      rcases h with h | h
      · exact hc.1 h
      · exact h hc.2
    simp only [onMessage, if_neg this]

/-- C8 witness: a fresh window over legal move "e4"; alice's counted vote
increments the tally to 1, marks alice, and her second message (even a
different legal move) changes nothing. -/
theorem c8_witness :
    ("alice" ∉ VoteState.init.users) ∧ ("e4" ∈ ["e4", "d4"]) ∧
    lookupCount (onMessage ["e4", "d4"] VoteState.init "alice" "e4").numVotes "e4"
      = some 1 ∧
    "alice" ∈ (onMessage ["e4", "d4"] VoteState.init "alice" "e4").users ∧
    onMessage ["e4", "d4"] (onMessage ["e4", "d4"] VoteState.init "alice" "e4") "alice" "d4"
      = onMessage ["e4", "d4"] VoteState.init "alice" "e4" :=
  ⟨by decide, by decide,
    ((c8_thm ["e4", "d4"] VoteState.init "alice" "e4").1 (by decide) (by decide)).1,
    ((c8_thm ["e4", "d4"] VoteState.init "alice" "e4").1 (by decide) (by decide)).2.1,
    ((c8_thm ["e4", "d4"] VoteState.init "alice" "e4").1 (by decide) (by decide)).2.2.2 "d4"⟩

/-! ### C3 -/

/-- C3 counterexample: legal moves `["e4","d4","c4"]`, four distinct voters
voting d4, e4, e4, d4.  The final tally is d4 ↦ 2 (inserted first), e4 ↦ 2;
the code's `max(num_votes, key=num_votes.get)` selects "d4" (the
first-inserted key among those tied for the maximum), while the first move
to reach the eventual maximum count is "e4" — the claim's asserted
coincidence of the two tie-breaks is false. -/
theorem c3_counterexample :
    pyMax (processMessages ["e4", "d4", "c4"]
        [("u1", "d4"), ("u2", "e4"), ("u3", "e4"), ("u4", "d4")]).numVotes = some "d4" ∧
    firstToReachEventualMax ["e4", "d4", "c4"]
        [("u1", "d4"), ("u2", "e4"), ("u3", "e4"), ("u4", "d4")] = some "e4" ∧
    ("d4" : String) ≠ "e4" := by
  refine ⟨rfl, rfl, by decide⟩

lemma pyMaxGo_ge (rest : List (String × Nat)) :
    ∀ best : String × Nat, best.2 ≤ (pyMaxGo best rest).2 := by
  induction rest with
  | nil => intro best; exact le_refl _
  | cons q rest ih =>
    intro best
    have hunf : pyMaxGo best (q :: rest)
        = pyMaxGo (if best.2 < q.2 then q else best) rest := rfl
    rw [hunf]
    by_cases h : best.2 < q.2
    · rw [if_pos h]
      exact le_trans (le_of_lt h) (ih q)
    · rw [if_neg h]
      exact ih best

lemma pyMaxGo_first (rest : List (String × Nat)) :
    ∀ best : String × Nat, ∃ pre post,
      best :: rest = pre ++ pyMaxGo best rest :: post ∧
      (∀ p ∈ pre, p.2 < (pyMaxGo best rest).2) ∧
      (∀ p ∈ post, p.2 ≤ (pyMaxGo best rest).2) := by
  induction rest with
  | nil =>
    intro best
    exact ⟨[], [], rfl, by simp, by simp⟩
  | cons q rest ih =>
    intro best
    have hunf : pyMaxGo best (q :: rest)
        = pyMaxGo (if best.2 < q.2 then q else best) rest := rfl
    rw [hunf]
    by_cases h : best.2 < q.2
    · rw [if_pos h]
      obtain ⟨pre, post, hdec, hpre, hpost⟩ := ih q
      refine ⟨best :: pre, post, ?_, ?_, hpost⟩
      · rw [List.cons_append, ← hdec]
      · intro p hp
        rcases List.mem_cons.mp hp with hp | hp
        · subst hp
          exact lt_of_lt_of_le h (pyMaxGo_ge rest q)
        · exact hpre p hp
    · rw [if_neg h]
      obtain ⟨pre, post, hdec, hpre, hpost⟩ := ih best
      cases pre with
      | nil =>
        rw [List.nil_append] at hdec
        have hb : best = pyMaxGo best rest := (List.cons_eq_cons.mp hdec).1
        have hrest : rest = post := (List.cons_eq_cons.mp hdec).2
        refine ⟨[], q :: rest, ?_, by simp, ?_⟩
        · rw [List.nil_append, ← hb]
        · intro p hp
          rcases List.mem_cons.mp hp with hp | hp
          · subst hp
            rw [← hb]
            exact Nat.le_of_not_lt h
          · rw [hrest] at hp
            exact hpost p hp
      | cons b pre' =>
        rw [List.cons_append] at hdec
        have hb : best = b := (List.cons_eq_cons.mp hdec).1
        have hrest : rest = pre' ++ pyMaxGo best rest :: post :=
          (List.cons_eq_cons.mp hdec).2
        have hblt : b.2 < (pyMaxGo best rest).2 := hpre b (List.mem_cons_self b pre')
        refine ⟨best :: q :: pre', post, ?_, ?_, hpost⟩
        · rw [List.cons_append, List.cons_append, ← hrest]
        · intro p hp
          have hb2 : best.2 = b.2 := congrArg Prod.snd hb
          rcases List.mem_cons.mp hp with hp | hp
          · have hp2 : p.2 = b.2 := by rw [hp, hb2]
            rw [hp2]
            exact hblt
          · rcases List.mem_cons.mp hp with hp | hp
            · have hq : p.2 ≤ best.2 := by
                rw [hp]
                exact Nat.le_of_not_lt h
              rw [hb2] at hq
              exact lt_of_le_of_lt hq hblt
            · exact hpre p (List.mem_cons_of_mem b hp)

lemma pyMax_spec (nv : List (String × Nat)) (h : nv ≠ []) :
    ∃ k v pre post, pyMax nv = some k ∧ nv = pre ++ (k, v) :: post ∧
      (∀ p ∈ pre, p.2 < v) ∧ (∀ p ∈ nv, p.2 ≤ v) := by
  cases nv with
  | nil => exact absurd rfl h
  | cons p rest =>
    obtain ⟨pre, post, hdec, hpre, hpost⟩ := pyMaxGo_first rest p
    refine ⟨(pyMaxGo p rest).1, (pyMaxGo p rest).2, pre, post, rfl, ?_, hpre, ?_⟩
    · rw [Prod.mk.eta]
      exact hdec
    · intro pp hpp
      rw [hdec] at hpp
      rcases List.mem_append.mp hpp with hl | hr
      · exact le_of_lt (hpre pp hl)
      · rcases List.mem_cons.mp hr with hr | hr
        · subst hr
          exact le_refl _
        · exact hpost pp hr

lemma keys_map_bumpKey (k : String) (nv : List (String × Nat)) :
    keys (nv.map (fun p => if p.1 = k then (p.1, p.2 + 1) else p)) = keys nv := by
  induction nv with
  | nil => rfl
  | cons p rest ih =>
    obtain ⟨k', v⟩ := p
    by_cases h : k' = k
    · subst h
      rw [List.map_cons, bumpApp_eq]
      simp only [keys, List.map_cons] at ih ⊢
      rw [ih]
    · rw [List.map_cons, bumpApp_ne h]
      simp only [keys, List.map_cons] at ih ⊢
      rw [ih]

lemma keys_bump (nv : List (String × Nat)) (k : String) :
    keys (bump nv k) = if k ∈ keys nv then keys nv else keys nv ++ [k] := by
  unfold bump
  by_cases h : k ∈ keys nv
  · rw [if_pos h, if_pos h, keys_map_bumpKey]
  · rw [if_neg h, if_neg h, keys_map_bumpKey]
    simp [keys]

lemma firstOccFrom_cons (acc : List String) (v : String) (vs : List String) :
    firstOccFrom acc (v :: vs) = firstOccFrom (if v ∈ acc then acc else acc ++ [v]) vs := rfl

lemma keys_processMsgs (legal : List String) (msgs : List (String × String)) :
    ∀ st : VoteState, keys (processMsgs legal st msgs).numVotes
      = firstOccFrom (keys st.numVotes) (countedVotes legal st msgs) := by
  induction msgs with
  | nil => intro st; rfl
  | cons m rest ih =>
    intro st
    obtain ⟨u, t⟩ := m
    have h1 : processMsgs legal st ((u, t) :: rest)
        = processMsgs legal (onMessage legal st u t) rest := rfl
    have h2 : countedVotes legal st ((u, t) :: rest)
        = if u ∉ st.users ∧ t ∈ legal
          then t :: countedVotes legal (onMessage legal st u t) rest
          else countedVotes legal (onMessage legal st u t) rest := rfl
    by_cases h : u ∉ st.users ∧ t ∈ legal
    · have hnv : (onMessage legal st u t).numVotes = bump st.numVotes t := by
        simp [onMessage, if_pos h]
      rw [h1, h2, if_pos h, firstOccFrom_cons, ih]
      rw [hnv, keys_bump]
    · have hst : onMessage legal st u t = st := by
        simp [onMessage, if_neg h]
      rw [h1, h2, if_neg h, hst]
      exact ih st

/-- C3 amended: at vote-window close with a non-empty tally the selected
move carries the maximum tally and is the first-inserted key among those
tied for the maximum (every earlier key has a strictly smaller count), and
insertion order is the arrival order of each move's first counted vote.
The selected move need not be the first move to reach the eventual maximum
count — see the counterexample. -/
theorem c3_thm (legal : List String) (msgs : List (String × String))
    (h : (processMessages legal msgs).numVotes ≠ []) :
    ∃ k v pre post,
      pyMax (processMessages legal msgs).numVotes = some k ∧
      (processMessages legal msgs).numVotes = pre ++ (k, v) :: post ∧
      (∀ p ∈ pre, p.2 < v) ∧
      (∀ p ∈ (processMessages legal msgs).numVotes, p.2 ≤ v) ∧
      keys (processMessages legal msgs).numVotes
        = firstOcc (countedVotes legal VoteState.init msgs) := by
  obtain ⟨k, v, pre, post, h1, h2, h3, h4⟩ := pyMax_spec _ h
  exact ⟨k, v, pre, post, h1, h2, h3, h4, keys_processMsgs legal msgs VoteState.init⟩

/-- C3 witness: the amended statement evaluated on a single counted vote. -/
theorem c3_witness :
    ((processMessages ["e4"] [("u", "e4")]).numVotes ≠ []) ∧
    (∃ k v pre post,
      pyMax (processMessages ["e4"] [("u", "e4")]).numVotes = some k ∧
      (processMessages ["e4"] [("u", "e4")]).numVotes = pre ++ (k, v) :: post ∧
      (∀ p ∈ pre, p.2 < v) ∧
      (∀ p ∈ (processMessages ["e4"] [("u", "e4")]).numVotes, p.2 ≤ v) ∧
      keys (processMessages ["e4"] [("u", "e4")]).numVotes
        = firstOcc (countedVotes ["e4"] VoteState.init [("u", "e4")])) :=
  ⟨by decide, c3_thm ["e4"] [("u", "e4")] (by decide)⟩

/-! ### C10 -/

lemma whenScanFrom_mem (caller : String) (queue : List (String × String)) :
    ∀ (idx0 idx : Nat) (tw li : String), queue[idx]? = some (tw, li) → tw = caller →
      WhenReply.position (idx0 + idx + 1) li ∈ whenScanFrom caller idx0 queue := by
  induction queue with
  | nil => intro idx0 idx tw li h; simp at h
  | cons p rest ih =>
    intro idx0 idx tw li h htw
    obtain ⟨tw0, li0⟩ := p
    cases idx with
    | zero =>
      rw [List.getElem?_cons_zero] at h
      obtain ⟨htw0, hli0⟩ := Prod.mk.injEq .. ▸ Option.some.inj h
      subst htw0; subst hli0; subst htw
      simp [whenScanFrom]
    | succ n =>
      rw [List.getElem?_cons_succ] at h
      have := ih (idx0 + 1) n tw li h htw
      have harith : idx0 + 1 + n + 1 = idx0 + (n + 1) + 1 := by omega
      rw [harith] at this
      simp only [whenScanFrom, List.mem_append]
      exact Or.inr this

/-- C10: for a privileged caller the `when` handler emits the queue-scan
replies followed unconditionally by the "You are not in queue" reply, so a
caller who is in the queue receives both a position reply and the
not-in-queue reply. -/
theorem c10_thm (caller : String) (queue : List (String × String)) :
    whenCommand true caller queue = whenScan caller queue ++ [WhenReply.notInQueue] ∧
    WhenReply.notInQueue ∈ whenCommand true caller queue ∧
    ∀ idx tw li, queue[idx]? = some (tw, li) → tw = caller →
      WhenReply.position (idx + 1) li ∈ whenCommand true caller queue := by
  refine ⟨rfl, by simp [whenCommand], ?_⟩
  intro idx tw li hq htw
  have := whenScanFrom_mem caller queue 0 idx tw li hq htw
  rw [Nat.zero_add] at this
  simp only [whenCommand, if_true, List.mem_append]
  exact Or.inl this

/-- C10 witness: with the queue `[("bob", "bl"), ("alice", "al")]`, the
privileged caller "alice" receives both the position-2 reply and the
not-in-queue reply. -/
theorem c10_witness :
    ([("bob", "bl"), ("alice", "al")] : List (String × String))[1]? = some ("alice", "al") ∧
    WhenReply.position 2 "al" ∈ whenCommand true "alice" [("bob", "bl"), ("alice", "al")] ∧
    WhenReply.notInQueue ∈ whenCommand true "alice" [("bob", "bl"), ("alice", "al")] :=
  ⟨rfl, (c10_thm "alice" [("bob", "bl"), ("alice", "al")]).2.2 1 "alice" "al" rfl rfl,
    (c10_thm "alice" [("bob", "bl"), ("alice", "al")]).2.1⟩

/-! ### C4 -/

/-- C4: in every reachable orchestrator state, at most one of the sessions
the orchestrator still references (active slot or game thread) is in a
non-Finished state; in particular every operation that installs a new
session preserves this. -/
theorem c4_thm (st : BotState) (h : Reachable st) :
    (nonFinishedLive st).length ≤ 1 := by
  have hinv := reachable_inv st h
  have hlen : ((st.activeGame.toList ++ st.activeThread.toList).dedup).length ≤ 1 := by
    cases hA : st.activeGame with
    | none =>
      cases hT : st.activeThread with
      | none => simp [hA, hT]
      | some t =>
        have hta := hinv.1 t hT
        rw [hA] at hta
        exact Option.noConfusion hta
    | some a =>
      cases hT : st.activeThread with
      | none => simp [hA, hT]
      | some t =>
        have hta := hinv.1 t hT
        rw [hA] at hta
        obtain rfl : a = t := Option.some.inj hta
        have hd : ([a, a] : List Nat).dedup = [a] := by
          rw [List.dedup_cons_of_mem (by simp)]
          simp
        simp [hA, hT, hd]
  calc (nonFinishedLive st).length
      ≤ ((st.activeGame.toList ++ st.activeThread.toList).dedup).length :=
        List.length_filter_le _ _
    _ ≤ 1 := hlen

/-- C4 witness: the invariant evaluated on the reachable state with one
pending session installed. -/
theorem c4_witness : (nonFinishedLive pendingTrace).length ≤ 1 :=
  c4_thm pendingTrace (Reachable.step (Ev.chal [] [some "c1"] "t" "l" 0) Reachable.init)

/-! ### C5 -/

/-- C5: in every reachable state the enqueue history is exactly the dequeue
history followed by the current queue (the queue is only ever appended at
the back or popped at the front), so the i-th dequeued-and-issued request
is the i-th enqueued one: FIFO order is preserved. -/
theorem c5_thm (st : BotState) (h : Reachable st) :
    st.enqHist = st.deqHist ++ st.challengeQueue ∧
    ∀ i, i < st.deqHist.length → st.deqHist[i]? = st.enqHist[i]? := by
  have h4 := (reachable_inv st h).2.2.2
  refine ⟨h4, ?_⟩
  intro i hi
  rw [h4, List.getElem?_append_left hi]

/-- C5 witness: after enqueueing "b"/"bb" behind an active challenge and a
decline that advances the queue, the first dequeued request is the first
enqueued one. -/
theorem c5_witness :
    fifoTrace.enqHist = fifoTrace.deqHist ++ fifoTrace.challengeQueue ∧
    (0 < fifoTrace.deqHist.length) ∧
    fifoTrace.deqHist[0]? = fifoTrace.enqHist[0]? :=
  ⟨(c5_thm fifoTrace (Reachable.step (Ev.declinedEv [] [some "c2"] "c1" 0)
      (Reachable.step (Ev.chal [] [] "b" "bb" 0)
        (Reachable.step (Ev.chal [] [some "c1"] "t" "l" 0) Reachable.init)))).1,
   by decide,
   (c5_thm fifoTrace (Reachable.step (Ev.declinedEv [] [some "c2"] "c1" 0)
      (Reachable.step (Ev.chal [] [] "b" "bb" 0)
        (Reachable.step (Ev.chal [] [some "c1"] "t" "l" 0) Reachable.init)))).2 0 (by decide)⟩

/-! ### C6 -/

lemma enqueue_queue (tw li : String) (st : BotState) :
    (enqueue tw li st).challengeQueue = st.challengeQueue ++ [(tw, li)] := rfl

lemma enqueue_msgs (tw li : String) (st : BotState) :
    (enqueue tw li st).msgs
      = st.msgs ++ [ChatMsg.queued tw (st.challengeQueue.length + 1)] := by
  simp [enqueue]

/-- C6: when the queue is empty and the polled active slot is `None`,
`challenge_user` immediately issues a challenge with the same requester and
opponent (the issue log gains exactly that pair next, nothing is enqueued);
otherwise it appends exactly one request and reports the 1-based position
equal to the queue length after the append. -/
theorem c6_thm (o1 o2 : List (Option String)) (tw li : String) (now : Nat)
    (st : BotState) :
    (st.challengeQueue = [] → (getActiveGame o1 now st).1 = none →
      (challengeUser o1 o2 tw li now st).issuedLog[(getActiveGame o1 now st).2.issuedLog.length]?
          = some (tw, li) ∧
      (challengeUser o1 o2 tw li now st).enqHist = st.enqHist) ∧
    (st.challengeQueue = [] → ∀ j, (getActiveGame o1 now st).1 = some j →
      (challengeUser o1 o2 tw li now st).challengeQueue
          = (getActiveGame o1 now st).2.challengeQueue ++ [(tw, li)] ∧
      ChatMsg.queued tw ((getActiveGame o1 now st).2.challengeQueue.length + 1)
          ∈ (challengeUser o1 o2 tw li now st).msgs) ∧
    (st.challengeQueue ≠ [] →
      (challengeUser o1 o2 tw li now st).challengeQueue = st.challengeQueue ++ [(tw, li)] ∧
      ChatMsg.queued tw (st.challengeQueue.length + 1)
          ∈ (challengeUser o1 o2 tw li now st).msgs) := by
  refine ⟨?_, ?_, ?_⟩
  · intro hq hga
    have he : challengeUser o1 o2 tw li now st
        = sendChallenge o2 tw li now (getActiveGame o1 now st).2 := by
      simp only [challengeUser, if_pos hq, hga]
    rw [he]
    constructor
    · obtain ⟨e, hiss⟩ := sendChallenge_issuedLog o2 tw li now (getActiveGame o1 now st).2
      rw [hiss, List.getElem?_append_right (Nat.le_refl _)]
      simp
    · rw [sendChallenge_enqHist]
      exact getActiveGame_enqHist o1 now st
  · intro hq j hga
    have he : challengeUser o1 o2 tw li now st
        = enqueue tw li (getActiveGame o1 now st).2 := by
      simp only [challengeUser, if_pos hq, hga]
    rw [he, enqueue_queue, enqueue_msgs]
    exact ⟨rfl, by simp⟩
  · intro hq
    have he : challengeUser o1 o2 tw li now st = enqueue tw li st := by
      simp only [challengeUser, if_neg hq]
    rw [he, enqueue_queue, enqueue_msgs]
    exact ⟨rfl, by simp⟩

/-- C6 witness: from the idle initial state the request is issued at once
with the same arguments; from a state with a queued request the new request
is appended and reported at position 2. -/
theorem c6_witness :
    (initState.challengeQueue = []) ∧ ((getActiveGame [] 0 initState).1 = none) ∧
    (challengeUser [] [some "c"] "t" "l" 0 initState).issuedLog[0]? = some ("t", "l") ∧
    (challengeUser [] [some "c"] "t" "l" 0 initState).enqHist = [] ∧
    (queuedState.challengeQueue ≠ []) ∧
    (challengeUser [] [] "t" "l" 0 queuedState).challengeQueue = [("b", "bb"), ("t", "l")] ∧
    ChatMsg.queued "t" 2 ∈ (challengeUser [] [] "t" "l" 0 queuedState).msgs :=
  ⟨rfl, rfl,
   ((c6_thm [] [some "c"] "t" "l" 0 initState).1 rfl rfl).1,
   ((c6_thm [] [some "c"] "t" "l" 0 initState).1 rfl rfl).2,
   by decide,
   ((c6_thm [] [] "t" "l" 0 queuedState).2.2 (by decide)).1,
   ((c6_thm [] [] "t" "l" 0 queuedState).2.2 (by decide)).2⟩

/-! ### C7 -/

/-- C7: when the challenge-creation call fails with a server rejection, the
failure is reported to chat, the active slot is left empty, and — if the
queue is non-empty — the front request is dequeued and issued within the
same step (the dequeue log and the issue log both gain that request at the
very next position). -/
theorem c7_thm (rest : List (Option String)) (tw li : String) (now : Nat)
    (st : BotState) :
    ChatMsg.challengeFailed tw li ∈ (sendChallenge (none :: rest) tw li now st).msgs ∧
    (st.challengeQueue = [] →
      (sendChallenge (none :: rest) tw li now st).activeGame = none ∧
      (sendChallenge (none :: rest) tw li now st).challengeQueue = []) ∧
    (∀ x1 x2 q, st.challengeQueue = (x1, x2) :: q →
      (sendChallenge (none :: rest) tw li now st).deqHist[st.deqHist.length]?
          = some (x1, x2) ∧
      (sendChallenge (none :: rest) tw li now st).issuedLog[st.issuedLog.length + 1]?
          = some (x1, x2)) := by
  refine ⟨?_, ?_, ?_⟩
  · cases hq : st.challengeQueue with
    | nil =>
      rw [sendChallenge_fail_nil rest tw li now st hq]
      simp
    | cons x q =>
      obtain ⟨x1, x2⟩ := x
      rw [sendChallenge_fail_cons rest tw li now st x1 x2 q hq]
      obtain ⟨m, hm⟩ := sendChallenge_msgs rest x1 x2 now (failAdvance tw li x1 x2 q st)
      rw [hm, failAdvance_msgs]
      simp
  · intro hq
    rw [sendChallenge_fail_nil rest tw li now st hq]
    exact ⟨rfl, hq⟩
  · intro x1 x2 q hq
    rw [sendChallenge_fail_cons rest tw li now st x1 x2 q hq]
    obtain ⟨d, hd⟩ := sendChallenge_deqHist rest x1 x2 now (failAdvance tw li x1 x2 q st)
    obtain ⟨e, he⟩ := sendChallenge_issuedLog rest x1 x2 now (failAdvance tw li x1 x2 q st)
    constructor
    · rw [hd, failAdvance_deqHist, List.append_assoc,
        List.getElem?_append_right (Nat.le_refl _)]
      simp
    · rw [he, failAdvance_issuedLog, List.append_assoc,
        List.getElem?_append_right (Nat.le_succ_of_le (Nat.le_refl _))]
      simp

/-- C7 witness: a rejected challenge from a state whose queue holds
`("b", "bb")` reports the failure and dequeues-and-issues that request in
the same step. -/
theorem c7_witness :
    ChatMsg.challengeFailed "t" "l" ∈ (sendChallenge [none, some "c"] "t" "l" 0 queuedState).msgs ∧
    (queuedState.challengeQueue = ("b", "bb") :: []) ∧
    (sendChallenge [none, some "c"] "t" "l" 0 queuedState).deqHist[0]? = some ("b", "bb") ∧
    (sendChallenge [none, some "c"] "t" "l" 0 queuedState).issuedLog[1]? = some ("b", "bb") :=
  ⟨(c7_thm [some "c"] "t" "l" 0 queuedState).1, rfl,
   ((c7_thm [some "c"] "t" "l" 0 queuedState).2.2 "b" "bb" [] rfl).1,
   ((c7_thm [some "c"] "t" "l" 0 queuedState).2.2 "b" "bb" [] rfl).2⟩

/-! ### C9 -/

lemma timeoutAnnounce_msgs (g : Session) (st : BotState) :
    (timeoutAnnounce g st).msgs
      = st.msgs ++ [ChatMsg.challengeTimedOut g.opponentTwitch g.opponentLichess] := rfl

/-- C9: a poll of an active session still `CHALLENGE_SENT` strictly more
than `ACCEPT_CHALLENGE_WAIT_SECONDS` after its creation announces the
timeout, clears the slot of that session (it is never the active session
afterwards), and advances the queue: an empty queue leaves the slot empty,
otherwise the front request is dequeued and issued in the same step. -/
theorem c9_thm (ora : List (Option String)) (now : Nat) (st : BotState) (i : Nat)
    (g : Session) (hre : Reachable st) (ha : st.activeGame = some i)
    (hs : storeGet st.store i = some g) (hcs : g.state = GameState.challengeSent)
    (ht : now - g.startTime > ACCEPT_CHALLENGE_WAIT_SECONDS) :
    ChatMsg.challengeTimedOut g.opponentTwitch g.opponentLichess
        ∈ (getActiveGame ora now st).2.msgs ∧
    (getActiveGame ora now st).2.activeGame ≠ some i ∧
    (st.challengeQueue = [] → (getActiveGame ora now st).2.activeGame = none ∧
      (getActiveGame ora now st).2.challengeQueue = []) ∧
    (∀ x1 x2 q, st.challengeQueue = (x1, x2) :: q →
      (getActiveGame ora now st).2.deqHist[st.deqHist.length]? = some (x1, x2) ∧
      (getActiveGame ora now st).2.issuedLog[st.issuedLog.length]? = some (x1, x2)) := by
  have hinv := reachable_inv st hre
  have hlt : i < st.nextId := hinv.2.1 i ha
  rw [getActiveGame_timeout ora now st i g ha hs hcs ht]
  refine ⟨?_, ?_, ?_, ?_⟩
  · obtain ⟨m, hm⟩ := setActiveGameNone_msgs ora now (timeoutAnnounce g st)
    rw [hm, timeoutAnnounce_msgs]
    simp
  · rcases setActiveGameNone_active ora now (timeoutAnnounce g st) with hnone | ⟨j, hj, hge, _⟩
    · rw [hnone]
      exact fun hc => Option.noConfusion hc
    · rw [hj]
      intro hc
      have hji : j = i := Option.some.inj hc
      have hge' : st.nextId ≤ j := hge
      omega
  · intro hq
    rw [setActiveGameNone_nil ora now (timeoutAnnounce g st) hq]
    exact ⟨rfl, hq⟩
  · intro x1 x2 q hq
    exact setActiveGameNone_advance ora now (timeoutAnnounce g st) x1 x2 q hq

/-- C9 witness: the pending challenge from time 0 polled at time 61 (with
the wait threshold at 60) is announced as timed out and the slot is
cleared. -/
theorem c9_witness :
    pendingTrace.activeGame = some 0 ∧
    ChatMsg.challengeTimedOut "t" "l" ∈ (getActiveGame [] 61 pendingTrace).2.msgs ∧
    (getActiveGame [] 61 pendingTrace).2.activeGame = none :=
  ⟨rfl,
   (c9_thm [] 61 pendingTrace 0 ⟨"t", "l", "c1", 0, GameState.challengeSent, none, none⟩
      (Reachable.step (Ev.chal [] [some "c1"] "t" "l" 0) Reachable.init)
      rfl rfl rfl (by decide)).1,
   ((c9_thm [] 61 pendingTrace 0 ⟨"t", "l", "c1", 0, GameState.challengeSent, none, none⟩
      (Reachable.step (Ev.chal [] [some "c1"] "t" "l" 0) Reachable.init)
      rfl rfl rfl (by decide)).2.2.1 rfl).1⟩

end PlayVsChat
